/-
Verification of the Entity-Documentation Mapping Engine
(src/workers/map/main.py of ai-documentation-gap-finder).

The Python worker is shallowly embedded: floats become exact rationals,
fallible code (Python exceptions) returns `Except Unit`, and the two
external numeric libraries are abstracted:
  * the md5 digest (hashlib) is a parameter `md5b : String → List ℕ`
    producing the digest bytes of a text;
  * the cosine similarity of two embedding vectors (sklearn/numpy) is a
    parameter `sim : List ℚ → List ℚ → ℚ`; the Cauchy-Schwarz lemma
    `dot_prod_sq_le` below shows that in exact arithmetic the cosine of
    any two rational vectors lies in [-1, 1], the range assumed of `sim`.
All other definitions are translated line by line from the source.
-/
import Mathlib

set_option maxHeartbeats 1000000
set_option maxRecDepth 4000

/-! ## Word extraction (HeuristicMatcher._extract_words, main.py lines 328-342)

`_extract_words` runs three regexes over the (already lowercased) text:
  1. `(\w+)`                        : maximal runs of word characters;
  2. `([A-Z][a-z]+|[A-Z]+(?![a-z]))`: CamelCase pieces;
  3. `(\w+)(?:_|-)(\w+)`            : snake/kebab pairs.
`findall` of pattern 3 returns 2-tuples; the cleaning loop then calls
`re.sub` on each entry, which raises `TypeError` on a tuple.  Hence the
function raises exactly when pattern 3 matches, i.e. when the text
contains a word character, then `_` or `-`, then a word character.
Python's `\w` is modelled at its ASCII core `[a-zA-Z0-9_]`. -/

def is_word_char (c : Char) : Bool := c.isAlphanum || c = '_'

/-- Maximal runs of word characters: `findall` of the regex `(\w+)`. -/
def word_runs_aux : List Char → List Char → List (List Char)
  | [], acc => if acc.isEmpty then [] else [acc.reverse]
  | c :: cs, acc =>
    if is_word_char c then word_runs_aux cs (c :: acc)
    else if acc.isEmpty then word_runs_aux cs []
    else acc.reverse :: word_runs_aux cs []

def word_runs (l : List Char) : List (List Char) := word_runs_aux l []

/-- One left-to-right `findall` scan of `([A-Z][a-z]+|[A-Z]+(?![a-z]))`.
On lowercased input (the only way `_extract_words` is ever called) this
returns `[]`.  Fuel = list length + 1 suffices: every step consumes at
least one character. -/
def camel_aux : Nat → List Char → List (List Char)
  | 0, _ => []
  | _ + 1, [] => []
  | fuel + 1, c :: cs =>
    if c.isUpper then
      match cs with
      | c2 :: _ =>
        if c2.isLower then
          -- first alternative [A-Z][a-z]+, greedy
          (c :: cs.takeWhile Char.isLower) :: camel_aux fuel (cs.dropWhile Char.isLower)
        else
          -- second alternative [A-Z]+(?![a-z]) with one-step backtracking
          let ups := cs.takeWhile Char.isUpper
          let rest := cs.dropWhile Char.isUpper
          match rest with
          | r :: _ =>
            if r.isLower then
              match ups.getLast? with
              | some lastUp => (c :: ups).dropLast :: camel_aux fuel (lastUp :: rest)
              | none => [c] :: camel_aux fuel cs
            else (c :: ups) :: camel_aux fuel rest
          | [] => (c :: ups) :: camel_aux fuel []
      | [] => [[c]]
    else camel_aux fuel cs

def camel_matches (l : List Char) : List (List Char) := camel_aux (l.length + 1) l

/-- Does `(\w+)(?:_|-)(\w+)` match anywhere?  Equivalent to: some word
character is immediately followed by `_` or `-` and then a word character. -/
def has_snake_kebab : List Char → Bool
  | a :: b :: c :: rest =>
    (is_word_char a && (b = '_' || b = '-') && is_word_char c) || has_snake_kebab (b :: c :: rest)
  | _ => false

def to_lower_str (s : String) : String := String.mk (s.data.map Char.toLower)

/-- `re.sub(r'[^a-zA-Z0-9]', '', word).lower()` -/
def clean_word (w : List Char) : String :=
  to_lower_str (String.mk (w.filter (fun c => c.isAlphanum)))

/-- `HeuristicMatcher._extract_words`.  Raises (TypeError) iff the
snake/kebab regex matched; otherwise cleans, keeps words of length > 2
and deduplicates (the Python `list(set(...))`; every caller immediately
takes the set again, so only membership matters). -/
def extract_words (text : String) : Except Unit (List String) :=
  if has_snake_kebab text.data then Except.error ()
  else
    let tokens := word_runs text.data ++ camel_matches text.data
    Except.ok (((tokens.map clean_word).filter (fun w => w.length > 2)).dedup)

/-! ## Heuristic similarity signals (main.py lines 262-326) -/

/-- `HeuristicMatcher._calculate_name_similarity` (lines 262-274). -/
def calculate_name_similarity (entity_name doc_title : String) : Except Unit ℚ :=
  if entity_name = "" ∨ doc_title = "" then Except.ok 0
  else
    match extract_words (to_lower_str entity_name) with
    | Except.error e => Except.error e
    | Except.ok ew =>
      match extract_words (to_lower_str doc_title) with
      | Except.error e => Except.error e
      | Except.ok tw =>
        let ewS := ew.toFinset
        let twS := tw.toFinset
        if ewS = ∅ then Except.ok 0
        else Except.ok (((ewS ∩ twS).card : ℚ) / (ewS.card : ℚ))

/-- Python's `str.split(sep)` for a one-character separator: split at
every occurrence, keeping empty pieces. -/
def split_on_char_aux (sep : Char) : List Char → List Char → List (List Char)
  | [], acc => [acc.reverse]
  | c :: cs, acc =>
    if c = sep then acc.reverse :: split_on_char_aux sep cs []
    else split_on_char_aux sep cs (c :: acc)

def split_on_char (sep : Char) (l : List Char) : List (List Char) :=
  split_on_char_aux sep l []

def is_space_char (c : Char) : Bool :=
  c = ' ' || c = '\t' || c = '\n' || c = '\r' || c = Char.ofNat 11 || c = Char.ofNat 12

/-- Python's `str.strip()`: drop leading and trailing whitespace. -/
def strip_chars (l : List Char) : List Char :=
  ((l.dropWhile is_space_char).reverse.dropWhile is_space_char).reverse

/-- `pathlib.Path(p).parts` for POSIX paths: a leading "/" root part,
then the non-empty, non-"." components. -/
def path_parts (p : String) : List String :=
  let comps := ((split_on_char '/' p.data).map String.mk).filter (fun s => s ≠ "" ∧ s ≠ ".")
  match p.data with
  | '/' :: _ => "/" :: comps
  | _ => comps

/-- Matching leading segments before the first mismatch (the zip loop,
lines 282-287). -/
def common_leading : List String → List String → Nat
  | a :: as, b :: bs => if a = b then 1 + common_leading as bs else 0
  | _, _ => 0

/-- `HeuristicMatcher._calculate_path_similarity` (lines 276-290). -/
def calculate_path_similarity (entity_path doc_path : String) : ℚ :=
  let a := path_parts entity_path
  let b := path_parts doc_path
  let max_parts := max a.length b.length
  if max_parts = 0 then 0 else (common_leading a b : ℚ) / (max_parts : ℚ)

/-- Is `needle` a leading segment of `hay`?  (empty needle matches). -/
def chars_start_with : List Char → List Char → Bool
  | [], _ => true
  | _ :: _, [] => false
  | a :: as, b :: bs => a = b && chars_start_with as bs

/-- Python's substring test `needle in hay`. -/
def chars_contain : List Char → List Char → Bool
  | n, [] => chars_start_with n []
  | n, c :: hs => chars_start_with n (c :: hs) || chars_contain n hs

structure Heading where
  text : String := ""
  anchor : Option String := none
  deriving DecidableEq

/-- `HeuristicMatcher._calculate_signature_similarity` (lines 292-310).
The signature's `parameters` are modelled as the list of their string
descriptors (the `isinstance(p, str)` filter keeps exactly those). -/
def calculate_signature_similarity (params : List String) (headings : List Heading) : ℚ :=
  if params = [] then 0
  else
    let param_names := params.map (fun p =>
      String.mk (strip_chars ((split_on_char ':' p.data).headD [])))
    let match_count := param_names.countP (fun nm =>
      !headings.isEmpty && headings.any (fun h =>
        chars_contain (to_lower_str nm).data (to_lower_str h.text).data))
    if param_names = [] then 0 else (match_count : ℚ) / (param_names.length : ℚ)

/-- The `for heading in headings` loop of
`HeuristicMatcher._calculate_heading_similarity` (lines 316-324). -/
def heading_loop (ewS : Finset String) : ℚ → List Heading → Except Unit ℚ
  | max_score, [] => Except.ok max_score
  | max_score, h :: hs =>
    match extract_words (to_lower_str h.text) with
    | Except.error e => Except.error e
    | Except.ok hw =>
      let hwS := hw.toFinset
      let next :=
        if ewS ≠ ∅ ∧ hwS ≠ ∅ then
          max max_score (((ewS ∩ hwS).card : ℚ) / (ewS.card : ℚ))
        else max_score
      heading_loop ewS next hs

/-- `HeuristicMatcher._calculate_heading_similarity` (lines 312-326). -/
def calculate_heading_similarity (entity_name : String) (headings : List Heading) : Except Unit ℚ :=
  match extract_words (to_lower_str entity_name) with
  | Except.error e => Except.error e
  | Except.ok ew => heading_loop ew.toFinset 0 headings

/-! ## Data model (main.py lines 61-128) -/

structure CodeEntity where
  id : String
  project_id : String
  kind : String
  name : String
  path : String
  lang : String
  signature : Option (List String) := none
  embedding : Option (List ℚ) := none
  deriving DecidableEq

structure DocEntity where
  id : String
  project_id : String
  path : String
  title : Option String := none
  headings : List Heading := []
  embedding : Option (List ℚ) := none
  deriving DecidableEq

structure MappingMetadata where
  entity_kind : String
  entity_lang : String
  doc_title : Option String
  deriving DecidableEq

structure EntityMapping where
  id : String
  project_id : String
  entity_id : String
  doc_id : String
  anchor : Option String := none
  score : ℚ := 0
  relation : String := "describes"
  confidence : String := "medium"
  heuristics_score : ℚ := 0
  embedding_score : ℚ := 0
  manual_override : Bool := false
  metadata : MappingMetadata
  deriving DecidableEq

structure MapRequest where
  project_id : String
  entity_ids : Option (List String) := none
  doc_ids : Option (List String) := none
  use_embeddings : Bool := true
  use_heuristics : Bool := true
  min_score_threshold : ℚ := 0.3
  max_mappings_per_entity : Nat := 5
  request_id : String := ""
  deriving DecidableEq

structure MapResult where
  project_id : String
  mappings : List EntityMapping
  success : Bool
  error_message : Option String := none
  map_duration : ℚ := 0
  entities_processed : Nat := 0
  docs_processed : Nat := 0
  mappings_created : Nat := 0
  request_id : String := ""
  deriving DecidableEq

/-- `weights.get(metric, 0)` with the fixed table of line 243-248. -/
def metric_weight (metric : String) : ℚ :=
  if metric = "name" then 0.4
  else if metric = "path" then 0.2
  else if metric = "signature" then 0.2
  else if metric = "heading" then 0.2
  else 0

/-- The confidence tiering of lines 253-258. -/
def conf_tier (total : ℚ) : String :=
  if total ≥ 0.8 then "high" else if total ≥ 0.5 then "medium" else "low"

/-- The optional "heading" entry of the scores list (lines 238-240). -/
def heading_part (entity : CodeEntity) (doc : DocEntity) : Except Unit (List (String × ℚ)) :=
  if doc.headings ≠ [] then
    match calculate_heading_similarity entity.name doc.headings with
    | Except.error e => Except.error e
    | Except.ok hs => Except.ok [("heading", hs)]
  else Except.ok []

/-- `HeuristicMatcher.calculate_heuristics_score` (lines 220-260).
A `signature` dict is truthy in Python iff non-empty; modelling it as the
optional parameter list is score-equivalent, because an empty parameter
list scores 0 at weight 0.2, the same contribution as an absent entry. -/
def calculate_heuristics_score (entity : CodeEntity) (doc : DocEntity) :
    Except Unit (ℚ × String) :=
  match calculate_name_similarity entity.name
      (match doc.title with | some t => t | none => "") with
  | Except.error e => Except.error e
  | Except.ok name_score =>
    let path_score := calculate_path_similarity entity.path doc.path
    let sig_scores : List (String × ℚ) :=
      match entity.signature with
      | some params =>
        if entity.kind = "function" ∨ entity.kind = "method" then
          [("signature", calculate_signature_similarity params doc.headings)]
        else []
      | none => []
    match heading_part entity doc with
    | Except.error e => Except.error e
    | Except.ok head_scores =>
      let scores := [("name", name_score), ("path", path_score)] ++ sig_scores ++ head_scores
      let total := (scores.map (fun sc => sc.2 * metric_weight sc.1)).sum
      Except.ok (total, conf_tier total)

/-! ## Embedding generator (EmbeddingGenerator, main.py lines 131-207)

Modelled in its deterministic mode (`use_openai = False`, no API key);
the OpenAI branch is network I/O and falls back to the same mock
embedding on any failure.  `md5b` abstracts `hashlib.md5(...).digest()`. -/

abbrev EmbCache := List (String × List ℚ)

def hex_char (n : Nat) : Char :=
  if n < 10 then Char.ofNat (48 + n) else Char.ofNat (87 + n)

/-- `hashlib.md5(text.encode()).hexdigest()` given the digest bytes. -/
def hex_of_bytes (bs : List Nat) : String :=
  String.join (bs.map (fun b => String.mk [hex_char (b / 16 % 16), hex_char (b % 16)]))

def get_cache_key (md5b : String → List Nat) (text : String) : String :=
  hex_of_bytes (md5b text)

def cache_lookup : EmbCache → String → Option (List ℚ)
  | [], _ => none
  | (k, v) :: rest, key => if k = key then some v else cache_lookup rest key

/-- `EmbeddingGenerator._generate_mock_embedding` (lines 193-207):
1536 components, each `digest[i % 16] / 127.5 - 1`. -/
def generate_mock_embedding (md5b : String → List Nat) (text : String) : List ℚ :=
  let hash_bytes := md5b text
  (List.range 1536).map (fun i => (hash_bytes.getD (i % hash_bytes.length) 0 : ℚ) / 127.5 - 1)

/-- `EmbeddingGenerator.generate_embedding` (lines 144-163): consult the
content-addressed cache, else compute and store the mock embedding. -/
def generate_embedding (md5b : String → List Nat) (cache : EmbCache) (text : String) :
    List ℚ × EmbCache :=
  let key := get_cache_key md5b text
  match cache_lookup cache key with
  | some v => (v, cache)
  | none =>
    let e := generate_mock_embedding md5b text
    (e, (key, e) :: cache)

/-! ## Mapping engine (MappingEngine, main.py lines 345-515) -/

/-- `MappingEngine._entity_to_text` (lines 389-405). -/
def entity_to_text (e : CodeEntity) : String :=
  let base := ["Name: " ++ e.name, "Type: " ++ e.kind,
               "Language: " ++ e.lang, "Path: " ++ e.path]
  let parts := base ++
    (match e.signature with
     | some params => ["Parameters: " ++ String.intercalate ", " params]
     | none => [])
  String.intercalate ". " parts

/-- `MappingEngine._doc_to_text` (lines 407-418). -/
def doc_to_text (d : DocEntity) : String :=
  let title := match d.title with
    | some t => if t = "" then "Untitled" else t
    | none => "Untitled"
  let base := ["Title: " ++ title, "Path: " ++ d.path]
  let parts := base ++
    (if d.headings ≠ [] then
       ["Headings: " ++ String.intercalate ", " ((d.headings.take 5).map Heading.text)]
     else [])
  String.intercalate ". " parts

/-- Python truthiness of the `embedding` attribute: present and non-empty. -/
def emb_truthy : Option (List ℚ) → Bool
  | none => false
  | some l => !l.isEmpty

def fill_entity_embedding (md5b : String → List Nat) (cache : EmbCache) (e : CodeEntity) :
    CodeEntity × EmbCache :=
  if emb_truthy e.embedding then (e, cache)
  else
    let (v, cache2) := generate_embedding md5b cache (entity_to_text e)
    ({ e with embedding := some v }, cache2)

def fill_doc_embedding (md5b : String → List Nat) (cache : EmbCache) (d : DocEntity) :
    DocEntity × EmbCache :=
  if emb_truthy d.embedding then (d, cache)
  else
    let (v, cache2) := generate_embedding md5b cache (doc_to_text d)
    ({ d with embedding := some v }, cache2)

def embed_entities (md5b : String → List Nat) : EmbCache → List CodeEntity →
    List CodeEntity × EmbCache
  | cache, [] => ([], cache)
  | cache, e :: es =>
    let (e2, cache2) := fill_entity_embedding md5b cache e
    let (rest, cache3) := embed_entities md5b cache2 es
    (e2 :: rest, cache3)

def embed_docs (md5b : String → List Nat) : EmbCache → List DocEntity →
    List DocEntity × EmbCache
  | cache, [] => ([], cache)
  | cache, d :: ds =>
    let (d2, cache2) := fill_doc_embedding md5b cache d
    let (rest, cache3) := embed_docs md5b cache2 ds
    (d2 :: rest, cache3)

/-- `MappingEngine._generate_embeddings` over `entities + docs`
(lines 360-361 and 374-387). -/
def embed_all (md5b : String → List Nat) (entities : List CodeEntity) (docs : List DocEntity)
    (cache : EmbCache) : List CodeEntity × (List DocEntity × EmbCache) :=
  let (es2, cache2) := embed_entities md5b cache entities
  let (ds2, cache3) := embed_docs md5b cache2 docs
  (es2, ds2, cache3)

/-- `MappingEngine._determine_relation` (lines 493-500). -/
def determine_relation (score : ℚ) : String :=
  if score ≥ 0.8 then "describes" else if score ≥ 0.5 then "references" else "mentions"

/-- `MappingEngine._find_best_anchor` (lines 502-515): the anchor of the
first heading containing the entity name, even when that anchor is None. -/
def find_best_anchor (entity : CodeEntity) (doc : DocEntity) : Option String :=
  if doc.headings = [] then none
  else
    match doc.headings.find? (fun h =>
        chars_contain (to_lower_str entity.name).data (to_lower_str h.text).data) with
    | some h => h.anchor
    | none => none

/-- Lines 449-457: the embedding score is `(cosine + 1) / 2` when
embeddings are enabled and both sides carry a (truthy) vector, else 0.
`sim` abstracts `cosine_similarity`. -/
def embedding_score_of (sim : List ℚ → List ℚ → ℚ) (entity : CodeEntity)
    (doc : DocEntity) (request : MapRequest) : ℚ :=
  if request.use_embeddings then
    match entity.embedding, doc.embedding with
    | some ev, some dv =>
      if ev ≠ [] ∧ dv ≠ [] then (sim ev dv + 1) / 2 else 0
    | _, _ => 0
  else 0

/-- Lines 459-467: the blend of the two signal families. -/
def combined_score_of (request : MapRequest) (heuristics_score embedding_score : ℚ) : ℚ :=
  if request.use_embeddings ∧ request.use_heuristics then
    heuristics_score * 0.6 + embedding_score * 0.4
  else if request.use_heuristics then heuristics_score
  else if request.use_embeddings then embedding_score
  else 0

/-- `MappingEngine._calculate_mapping_score` (lines 436-491). -/
def calculate_mapping_score (sim : List ℚ → List ℚ → ℚ) (entity : CodeEntity)
    (doc : DocEntity) (request : MapRequest) : Except Unit EntityMapping :=
  match (if request.use_heuristics then calculate_heuristics_score entity doc
         else Except.ok (0, "low")) with
  | Except.error e => Except.error e
  | Except.ok hc =>
    let heuristics_score := hc.1
    let confidence := hc.2
    let embedding_score := embedding_score_of sim entity doc request
    let combined_score := combined_score_of request heuristics_score embedding_score
    Except.ok
      { id := entity.id ++ ":" ++ doc.id
        project_id := entity.project_id
        entity_id := entity.id
        doc_id := doc.id
        anchor := find_best_anchor entity doc
        score := combined_score
        relation := determine_relation combined_score
        confidence := confidence
        heuristics_score := heuristics_score
        embedding_score := embedding_score
        manual_override := false
        metadata := { entity_kind := entity.kind, entity_lang := entity.lang,
                      doc_title := doc.title } }

/-- The `for doc in docs` loop of `_map_entity_to_docs` (lines 425-430):
score each pair, keep those reaching the threshold, in doc order. -/
def candidate_mappings (sim : List ℚ → List ℚ → ℚ) (entity : CodeEntity)
    (request : MapRequest) : List DocEntity → Except Unit (List EntityMapping)
  | [] => Except.ok []
  | d :: ds =>
    match calculate_mapping_score sim entity d request with
    | Except.error e => Except.error e
    | Except.ok m =>
      match candidate_mappings sim entity request ds with
      | Except.error e => Except.error e
      | Except.ok rest =>
        Except.ok (if request.min_score_threshold ≤ m.score then m :: rest else rest)

/-- Stable descending insertion by `score`: an earlier element stays
before a later one of equal score.  This is the specification of
Python's stable `list.sort(key=..., reverse=True)` (line 433). -/
def insert_desc (x : EntityMapping) : List EntityMapping → List EntityMapping
  | [] => [x]
  | h :: t => if h.score ≤ x.score then x :: h :: t else h :: insert_desc x t

def sort_desc : List EntityMapping → List EntityMapping
  | [] => []
  | h :: t => insert_desc h (sort_desc t)

/-- `MappingEngine._map_entity_to_docs` (lines 420-434). -/
def map_entity_to_docs (sim : List ℚ → List ℚ → ℚ) (entity : CodeEntity)
    (docs : List DocEntity) (request : MapRequest) : Except Unit (List EntityMapping) :=
  match candidate_mappings sim entity request docs with
  | Except.error e => Except.error e
  | Except.ok cands => Except.ok ((sort_desc cands).take request.max_mappings_per_entity)

/-- The `for entity in entities` loop of `generate_mappings`
(lines 363-370), including the early `break` taken as soon as one
entity's (truncated) mapping list reaches the per-entity cap. -/
def map_loop (sim : List ℚ → List ℚ → ℚ) (docs : List DocEntity) (request : MapRequest) :
    List CodeEntity → Except Unit (List EntityMapping)
  | [] => Except.ok []
  | e :: es =>
    match map_entity_to_docs sim e docs request with
    | Except.error err => Except.error err
    | Except.ok ms =>
      if request.max_mappings_per_entity ≤ ms.length then Except.ok ms
      else
        match map_loop sim docs request es with
        | Except.error err => Except.error err
        | Except.ok rest => Except.ok (ms ++ rest)

/-- `MappingEngine.generate_mappings` (lines 352-372). -/
def generate_mappings (md5b : String → List Nat) (sim : List ℚ → List ℚ → ℚ)
    (entities : List CodeEntity) (docs : List DocEntity) (request : MapRequest)
    (cache : EmbCache) : Except Unit (List EntityMapping) :=
  let prepared :=
    if request.use_embeddings then embed_all md5b entities docs cache
    else (entities, docs, cache)
  map_loop sim prepared.2.1 request prepared.1

/-- `MapWorker.handle_map_request` (lines 567-609), from the point the
entities and docs of the request are in hand: the whole body runs under
one `try`, so any exception yields no published result (`none`); on
success one `MapResult` is published. -/
def run_map_request (md5b : String → List Nat) (sim : List ℚ → List ℚ → ℚ)
    (entities : List CodeEntity) (docs : List DocEntity) (request : MapRequest) :
    Option MapResult :=
  match generate_mappings md5b sim entities docs request [] with
  | Except.error _ => none
  | Except.ok mappings =>
    some { project_id := request.project_id
           mappings := mappings
           success := true
           error_message := none
           map_duration := 0
           entities_processed := entities.length
           docs_processed := docs.length
           mappings_created := mappings.length
           request_id := request.request_id }

/-! ## Decidable equality for `Except` results -/

instance {ε α : Type _} [DecidableEq ε] [DecidableEq α] : DecidableEq (Except ε α) := fun x y =>
  match x, y with
  | Except.error a, Except.error b =>
    if h : a = b then isTrue (by rw [h]) else isFalse (fun hh => h (by cases hh; rfl))
  | Except.error _, Except.ok _ => isFalse (fun hh => Except.noConfusion hh)
  | Except.ok _, Except.error _ => isFalse (fun hh => Except.noConfusion hh)
  | Except.ok a, Except.ok b =>
    if h : a = b then isTrue (by rw [h]) else isFalse (fun hh => h (by cases hh; rfl))

/-! ## Concrete fixtures used by the witnesses and counterexamples -/

/-- A fixed stand-in for the md5 digest function (its internals are
irrelevant to every claim; only determinism, 16 bytes and byte range
matter, which this instance satisfies). -/
def md5W : String → List Nat := fun _ => List.replicate 16 0

/-- Cosine stand-ins inside the admissible range [-1, 1]. -/
def simW : List ℚ → List ℚ → ℚ := fun _ _ => 0

def sim1 : List ℚ → List ℚ → ℚ := fun _ _ => 1

def eW : CodeEntity :=
  { id := "e1", project_id := "p", kind := "function", name := "alpha",
    path := "src/alpha.py", lang := "python" }

def e2W : CodeEntity := { eW with id := "e2" }

/-- An entity whose name makes `_extract_words` raise `TypeError`
(the snake/kebab findall returns tuples). -/
def eBadW : CodeEntity := { eW with id := "e2", name := "do_it" }

def dW : DocEntity :=
  { id := "d1", project_id := "p", path := "docs/alpha.md", title := some "alpha" }

/-- Heuristics only, defaults otherwise. -/
def reqH : MapRequest :=
  { project_id := "p", use_embeddings := false, use_heuristics := true }

/-- Heuristics only, per-entity cap 1. -/
def reqCap1 : MapRequest := { reqH with max_mappings_per_entity := 1 }

/-- Both signal families enabled (all defaults). -/
def reqB : MapRequest := { project_id := "p" }

/-- Embeddings only (heuristics disabled). -/
def req9 : MapRequest := { project_id := "p", use_embeddings := true, use_heuristics := false }

/-- The single mapping produced for `eW` against `dW` under `reqH`:
name similarity 1 at weight 0.4, every other signal 0. -/
def mW : EntityMapping :=
  { id := "e1:d1", project_id := "p", entity_id := "e1", doc_id := "d1",
    anchor := none, score := 2/5, relation := "mentions", confidence := "low",
    heuristics_score := 2/5, embedding_score := 0, manual_override := false,
    metadata := { entity_kind := "function", entity_lang := "python",
                  doc_title := some "alpha" } }

/-- The mapping produced under `req9`/`sim1` for the embedded fixtures:
blended score 1 but confidence still "low". -/
def m9 : EntityMapping :=
  { mW with score := 1, relation := "describes", heuristics_score := 0,
            embedding_score := 1 }

/-! ## C1, C2, C4: behavior of the code at the failing inputs -/

/-- C1: the claim says one entity reaching the per-entity cap never
curtails the processing of subsequent entities.  The code's early global
`break` (main.py line 369-370) violates this: with cap 1, entity e1
fills its quota on the single doc and entity e2 — which on its own maps
to the very same doc — is never processed: its mapping is missing from
the batch result. -/
theorem c1_early_break_loses_entities :
    (generate_mappings md5W simW [eW, e2W] [dW] reqCap1 []).map
      (fun l => l.map EntityMapping.entity_id) = Except.ok ["e1"]
    ∧ (map_entity_to_docs simW e2W [dW] reqCap1).map
      (fun l => l.map EntityMapping.entity_id) = Except.ok ["e2"] := by
  with_unfolding_all exact ⟨rfl, rfl⟩

/-- C2: the claim (from the spec scenario) says entity "getUser" against
title "Get User Guide" has name-similarity 1.0 and heuristics score 0.4.
The code lowercases the text before the CamelCase pattern can match, so
"getUser" tokenizes to the single token "getuser", disjoint from
{get, user, guide}: name-similarity is 0 and the heuristic score is 0
(confidence "low", as the claim also says, but via 0 rather than 0.4). -/
theorem c2_getuser_heuristics_zero :
    extract_words (to_lower_str "getUser") = Except.ok ["getuser"]
    ∧ extract_words (to_lower_str "Get User Guide") = Except.ok ["get", "user", "guide"]
    ∧ calculate_name_similarity "getUser" "Get User Guide" = Except.ok 0
    ∧ calculate_name_similarity "getUser" "Get User Guide" ≠ Except.ok 1
    ∧ calculate_heuristics_score
        { eW with name := "getUser", path := "src/user.py" }
        { dW with title := some "Get User Guide", path := "docs/guide.md" }
        = Except.ok (0, "low") := by
  with_unfolding_all refine ⟨rfl, rfl, rfl, ?_, rfl⟩
  with_unfolding_all decide

/-- C4: the claim says an unexpected exception while scoring one
(entity, doc) pair excludes just that pair and the batch continues.  In
the code there is no per-pair handler: the `TypeError` raised while
scoring (do_it, d1) propagates out of `generate_mappings`, and
`handle_map_request`'s request-level `except` swallows everything — no
result is published and the good pair's mapping (produced when the bad
entity is absent) is lost. -/
theorem c4_pair_exception_aborts_request :
    generate_mappings md5W simW [eW, eBadW] [dW] reqH [] = Except.error ()
    ∧ run_map_request md5W simW [eW, eBadW] [dW] reqH = none
    ∧ (generate_mappings md5W simW [eW] [dW] reqH []).map
        (fun l => l.map EntityMapping.entity_id) = Except.ok ["e1"] := by
  with_unfolding_all exact ⟨rfl, rfl, rfl⟩

/-- C10 counterexample: the claim includes "do_it" among names whose
name-similarity is 0 against every title, "even when the title is the
identical string".  In fact scoring "do_it" raises (the snake/kebab
findall tuples crash the cleaning loop), so the similarity is an
exception, not 0. -/
theorem c10_counterexample :
    calculate_name_similarity "do_it" "do_it" = Except.error ()
    ∧ calculate_name_similarity "do_it" "do_it" ≠ Except.ok 0
    ∧ calculate_heading_similarity "do_it" [{ text := "do_it", anchor := none }]
        = Except.error () := by
  with_unfolding_all refine ⟨rfl, ?_, rfl⟩
  with_unfolding_all decide

/-! ## Properties of the stable descending sort -/

/-- The order used for one entity's candidate list: scores non-increasing. -/
def score_ge (a b : EntityMapping) : Prop := b.score ≤ a.score

theorem mem_insert_desc {x y : EntityMapping} {l : List EntityMapping} :
    y ∈ insert_desc x l ↔ y = x ∨ y ∈ l := by
  induction l with
  | nil => simp [insert_desc]
  | cons h t ih =>
    by_cases hc : h.score ≤ x.score
    · simp only [insert_desc, if_pos hc, List.mem_cons]
    · simp only [insert_desc, if_neg hc, List.mem_cons, ih]
      tauto

theorem sorted_insert_desc {x : EntityMapping} {l : List EntityMapping}
    (hl : l.Pairwise score_ge) : (insert_desc x l).Pairwise score_ge := by
  induction l with
  | nil => simp [insert_desc, score_ge]
  | cons h t ih =>
    rcases List.pairwise_cons.mp hl with ⟨hh, ht⟩
    by_cases hc : h.score ≤ x.score
    · simp only [insert_desc, if_pos hc]
      refine List.pairwise_cons.mpr ⟨?_, hl⟩
      intro b hb
      rcases List.mem_cons.mp hb with rfl | hb
      · exact hc
      · exact le_trans (hh b hb) hc
    · simp only [insert_desc, if_neg hc]
      refine List.pairwise_cons.mpr ⟨?_, ih ht⟩
      intro b hb
      rcases mem_insert_desc.mp hb with rfl | hb
      · exact le_of_not_le hc
      · exact hh b hb

theorem sorted_sort_desc (l : List EntityMapping) : (sort_desc l).Pairwise score_ge := by
  induction l with
  | nil => simp [sort_desc]
  | cons h t ih => exact sorted_insert_desc ih

theorem filter_insert_desc {x : EntityMapping} {l : List EntityMapping} (s : ℚ)
    (hl : l.Pairwise score_ge) :
    (insert_desc x l).filter (fun m => decide (m.score = s)) =
      if x.score = s then x :: l.filter (fun m => decide (m.score = s))
      else l.filter (fun m => decide (m.score = s)) := by
  induction l with
  | nil =>
    by_cases hx : x.score = s <;> simp [insert_desc, List.filter, hx]
  | cons h t ih =>
    rcases List.pairwise_cons.mp hl with ⟨_, ht⟩
    by_cases hc : h.score ≤ x.score
    · simp only [insert_desc, if_pos hc]
      by_cases hx : x.score = s <;> simp [List.filter_cons, hx]
    · simp only [insert_desc, if_neg hc]
      have hxh : x.score < h.score := lt_of_not_le hc
      by_cases hx : x.score = s
      · have hhs : ¬ h.score = s := by
          intro he
          rw [he, hx] at hxh
          exact lt_irrefl s hxh
        simp [List.filter_cons, hhs, hx, ih ht]
      · by_cases hhs : h.score = s <;>
          simp [List.filter_cons, hhs, hx, ih ht]

theorem filter_sort_desc (l : List EntityMapping) (s : ℚ) :
    (sort_desc l).filter (fun m => decide (m.score = s)) =
      l.filter (fun m => decide (m.score = s)) := by
  induction l with
  | nil => rfl
  | cons h t ih =>
    have hs := sorted_sort_desc t
    by_cases hh : h.score = s <;>
      simp [sort_desc, filter_insert_desc s hs, hh, List.filter_cons, ih]

theorem filter_take_ex {α : Type _} (p : α → Bool) (l : List α) (n : Nat) :
    ∃ k, (l.take n).filter p = (l.filter p).take k := by
  induction l generalizing n with
  | nil => exact ⟨0, by simp⟩
  | cons h t ih =>
    cases n with
    | zero => exact ⟨0, by simp⟩
    | succ n =>
      obtain ⟨k, hk⟩ := ih n
      by_cases hp : p h
      · exact ⟨k + 1, by simp [List.filter_cons, hp, hk]⟩
      · exact ⟨k, by simp [List.filter_cons, hp, hk]⟩

/-! ## Range of each heuristic signal -/

theorem name_similarity_bounds {a b : String} {q : ℚ}
    (h : calculate_name_similarity a b = Except.ok q) : 0 ≤ q ∧ q ≤ 1 := by
  simp only [calculate_name_similarity] at h
  split at h
  · cases Except.ok.inj h
    norm_num
  · split at h
    · exact Except.noConfusion h
    next ew hew =>
      split at h
      · exact Except.noConfusion h
      next tw htw =>
        split at h
        · cases Except.ok.inj h
          norm_num
        next hne =>
          cases Except.ok.inj h
          have hpos : (0 : ℚ) < (ew.toFinset.card : ℚ) := by
            have := Finset.card_pos.mpr (Finset.nonempty_iff_ne_empty.mpr hne)
            exact_mod_cast this
          constructor
          · exact div_nonneg (by positivity) (le_of_lt hpos)
          · rw [div_le_one hpos]
            exact_mod_cast Finset.card_le_card (Finset.inter_subset_left)

theorem common_leading_le_left (a b : List String) : common_leading a b ≤ a.length := by
  induction a generalizing b with
  | nil => simp [common_leading]
  | cons x xs ih =>
    cases b with
    | nil => simp [common_leading]
    | cons y ys =>
      by_cases hxy : x = y
      · simp only [common_leading, if_pos hxy, List.length_cons]
        have := ih ys
        omega
      · simp only [common_leading, if_neg hxy]
        omega

theorem path_similarity_bounds (p q : String) :
    0 ≤ calculate_path_similarity p q ∧ calculate_path_similarity p q ≤ 1 := by
  simp only [calculate_path_similarity]
  split
  · norm_num
  next hmax =>
    have hpos : (0 : ℚ) < ((max (path_parts p).length (path_parts q).length : Nat) : ℚ) := by
      have : 0 < max (path_parts p).length (path_parts q).length := Nat.pos_of_ne_zero hmax
      exact_mod_cast this
    constructor
    · exact div_nonneg (by positivity) (le_of_lt hpos)
    · rw [div_le_one hpos]
      have hle : common_leading (path_parts p) (path_parts q) ≤
          max (path_parts p).length (path_parts q).length :=
        le_trans (common_leading_le_left _ _) (le_max_left _ _)
      exact_mod_cast hle

theorem signature_similarity_bounds (params : List String) (headings : List Heading) :
    0 ≤ calculate_signature_similarity params headings
    ∧ calculate_signature_similarity params headings ≤ 1 := by
  simp only [calculate_signature_similarity]
  split
  · norm_num
  · split
    · norm_num
    next hne =>
      have hlen : 0 < (params.map (fun p =>
          String.mk (strip_chars ((split_on_char ':' p.data).headD [])))).length :=
        List.length_pos.mpr hne
      have hpos : (0 : ℚ) < ((params.map (fun p =>
          String.mk (strip_chars ((split_on_char ':' p.data).headD [])))).length : ℚ) := by
        exact_mod_cast hlen
      constructor
      · exact div_nonneg (by positivity) (le_of_lt hpos)
      · rw [div_le_one hpos]
        exact_mod_cast List.countP_le_length _

theorem heading_loop_bounds {ewS : Finset String} {acc q : ℚ} {hs : List Heading}
    (hacc : 0 ≤ acc ∧ acc ≤ 1) (h : heading_loop ewS acc hs = Except.ok q) :
    0 ≤ q ∧ q ≤ 1 := by
  induction hs generalizing acc with
  | nil =>
    simp only [heading_loop] at h
    cases Except.ok.inj h
    exact hacc
  | cons hd tl ih =>
    simp only [heading_loop] at h
    split at h
    · exact Except.noConfusion h
    next hw hhw =>
      by_cases hcond : ewS ≠ ∅ ∧ hw.toFinset ≠ ∅
      · rw [if_pos hcond] at h
        refine ih ⟨?_, ?_⟩ h
        · exact le_max_of_le_left hacc.1
        · have hpos : (0 : ℚ) < (ewS.card : ℚ) := by
            have := Finset.card_pos.mpr (Finset.nonempty_iff_ne_empty.mpr hcond.1)
            exact_mod_cast this
          refine max_le hacc.2 ?_
          rw [div_le_one hpos]
          exact_mod_cast Finset.card_le_card (Finset.inter_subset_left)
      · rw [if_neg hcond] at h
        exact ih hacc h

theorem heading_similarity_bounds {n : String} {hs : List Heading} {q : ℚ}
    (h : calculate_heading_similarity n hs = Except.ok q) : 0 ≤ q ∧ q ≤ 1 := by
  simp only [calculate_heading_similarity] at h
  split at h
  · exact Except.noConfusion h
  next ew hew => exact heading_loop_bounds (by norm_num) h

/-! ## The combined heuristic score and confidence tier -/

theorem heading_part_shape {e : CodeEntity} {d : DocEntity} {hsl : List (String × ℚ)}
    (h : heading_part e d = Except.ok hsl) :
    hsl = [] ∨ ∃ q, hsl = [("heading", q)] ∧ 0 ≤ q ∧ q ≤ 1 := by
  simp only [heading_part] at h
  split at h
  · split at h
    · exact Except.noConfusion h
    next q hq =>
      cases Except.ok.inj h
      exact Or.inr ⟨q, rfl, heading_similarity_bounds hq⟩
  · cases Except.ok.inj h
    exact Or.inl rfl

/-- The heuristic scorer returns the tier of its own total. -/
theorem heuristics_tier {e : CodeEntity} {d : DocEntity} {tc : ℚ × String}
    (h : calculate_heuristics_score e d = Except.ok tc) : tc.2 = conf_tier tc.1 := by
  simp only [calculate_heuristics_score] at h
  split at h
  · exact Except.noConfusion h
  next name_score hname =>
    split at h
    · exact Except.noConfusion h
    next head_scores hhead =>
      cases Except.ok.inj h
      rfl


/-- Arithmetic of the weighted score list: with the name and path entries
always present and signature/heading entries optional, the weighted sum
stays inside [0, 1]. -/
theorem sum_weighted_bounds (n p : ℚ) (S H : List (String × ℚ))
    (hn : 0 ≤ n ∧ n ≤ 1) (hp : 0 ≤ p ∧ p ≤ 1)
    (hS : S = [] ∨ ∃ s, S = [("signature", s)] ∧ 0 ≤ s ∧ s ≤ 1)
    (hH : H = [] ∨ ∃ q, H = [("heading", q)] ∧ 0 ≤ q ∧ q ≤ 1) :
    0 ≤ (([("name", n), ("path", p)] ++ S ++ H).map
          (fun sc => sc.2 * metric_weight sc.1)).sum
    ∧ (([("name", n), ("path", p)] ++ S ++ H).map
          (fun sc => sc.2 * metric_weight sc.1)).sum ≤ 1 := by
  have w1 : metric_weight "name" = 0.4 := rfl
  have w2 : metric_weight "path" = 0.2 := rfl
  have w3 : metric_weight "signature" = 0.2 := rfl
  have w4 : metric_weight "heading" = 0.2 := rfl
  rcases hS with rfl | ⟨s, rfl, hs⟩ <;> rcases hH with rfl | ⟨q, rfl, hq⟩ <;>
    simp only [List.map_append, List.map_cons, List.map_nil, List.sum_append,
               List.sum_cons, List.sum_nil, w1, w2, w3, w4] <;>
    constructor <;> linarith [hn.1, hn.2, hp.1, hp.2]

theorem heuristics_bounds {e : CodeEntity} {d : DocEntity} {tc : ℚ × String}
    (h : calculate_heuristics_score e d = Except.ok tc) : 0 ≤ tc.1 ∧ tc.1 ≤ 1 := by
  simp only [calculate_heuristics_score] at h
  split at h
  · exact Except.noConfusion h
  next name_score hname =>
    split at h
    · exact Except.noConfusion h
    next head_scores hhead =>
      cases Except.ok.inj h
      have hn := name_similarity_bounds hname
      have hp := path_similarity_bounds e.path d.path
      have hH := heading_part_shape hhead
      dsimp only
      rcases hsig : e.signature with _ | params
      · simp only [hsig]
        exact sum_weighted_bounds _ _ _ _ hn hp (Or.inl rfl) hH
      · simp only [hsig]
        by_cases hkind : e.kind = "function" ∨ e.kind = "method"
        · simp only [if_pos hkind]
          exact sum_weighted_bounds _ _ _ _ hn hp
            (Or.inr ⟨_, rfl, signature_similarity_bounds params d.headings⟩) hH
        · simp only [if_neg hkind]
          exact sum_weighted_bounds _ _ _ _ hn hp (Or.inl rfl) hH

/-! ## Invariants of one scored pair -/

theorem mapping_score_shape {sim : List ℚ → List ℚ → ℚ} {e : CodeEntity} {d : DocEntity}
    {req : MapRequest} {m : EntityMapping}
    (h : calculate_mapping_score sim e d req = Except.ok m) :
    m.relation = determine_relation m.score
    ∧ m.score = combined_score_of req m.heuristics_score m.embedding_score
    ∧ m.embedding_score = embedding_score_of sim e d req
    ∧ (if req.use_heuristics then calculate_heuristics_score e d
       else Except.ok ((0 : ℚ), "low")) = Except.ok (m.heuristics_score, m.confidence) := by
  simp only [calculate_mapping_score] at h
  split at h
  · exact Except.noConfusion h
  next hc hhc =>
    cases Except.ok.inj h
    exact ⟨rfl, rfl, rfl, hhc⟩

theorem mapping_confidence {sim : List ℚ → List ℚ → ℚ} {e : CodeEntity} {d : DocEntity}
    {req : MapRequest} {m : EntityMapping}
    (h : calculate_mapping_score sim e d req = Except.ok m) :
    m.confidence = conf_tier m.heuristics_score := by
  have h2 := (mapping_score_shape h).2.2.2
  by_cases hu : req.use_heuristics
  · rw [if_pos hu] at h2
    exact heuristics_tier h2
  · rw [if_neg hu] at h2
    have hp := Except.ok.inj h2
    have h1 : (0 : ℚ) = m.heuristics_score := congrArg Prod.fst hp
    have hcv : "low" = m.confidence := congrArg Prod.snd hp
    rw [← hcv, ← h1]
    norm_num [conf_tier]

theorem embedding_score_bounds {sim : List ℚ → List ℚ → ℚ} (e : CodeEntity) (d : DocEntity)
    (req : MapRequest) (hsim : ∀ a b : List ℚ, -1 ≤ sim a b ∧ sim a b ≤ 1) :
    0 ≤ embedding_score_of sim e d req ∧ embedding_score_of sim e d req ≤ 1 := by
  unfold embedding_score_of
  split
  · split
    next ev dv hev hdv =>
      split
      next hne =>
        have := hsim ev dv
        constructor <;> [linarith [this.1]; linarith [this.2]]
      · norm_num
    · norm_num
  · norm_num

theorem combined_score_bounds (req : MapRequest) {h e : ℚ}
    (hh : 0 ≤ h ∧ h ≤ 1) (he : 0 ≤ e ∧ e ≤ 1) :
    0 ≤ combined_score_of req h e ∧ combined_score_of req h e ≤ 1 := by
  unfold combined_score_of
  split
  · constructor <;> [linarith [hh.1, he.1]; linarith [hh.2, he.2]]
  · split
    · exact hh
    · split
      · exact he
      · norm_num

theorem mapping_heuristics_bounds {sim : List ℚ → List ℚ → ℚ} {e : CodeEntity}
    {d : DocEntity} {req : MapRequest} {m : EntityMapping}
    (h : calculate_mapping_score sim e d req = Except.ok m) :
    0 ≤ m.heuristics_score ∧ m.heuristics_score ≤ 1 := by
  have h2 := (mapping_score_shape h).2.2.2
  by_cases hu : req.use_heuristics
  · rw [if_pos hu] at h2
    exact heuristics_bounds h2
  · rw [if_neg hu] at h2
    have hp := Except.ok.inj h2
    have h1 : (0 : ℚ) = m.heuristics_score := congrArg Prod.fst hp
    rw [← h1]
    norm_num

/-! ## Where a returned mapping comes from -/

theorem mem_candidate_mappings {sim : List ℚ → List ℚ → ℚ} {e : CodeEntity}
    {req : MapRequest} {docs : List DocEntity} {c : List EntityMapping} {m : EntityMapping}
    (h : candidate_mappings sim e req docs = Except.ok c) (hm : m ∈ c) :
    req.min_score_threshold ≤ m.score
    ∧ ∃ d, calculate_mapping_score sim e d req = Except.ok m := by
  induction docs generalizing c with
  | nil =>
    simp only [candidate_mappings] at h
    cases Except.ok.inj h
    exact absurd hm (by simp)
  | cons d ds ih =>
    simp only [candidate_mappings] at h
    split at h
    · exact Except.noConfusion h
    next m0 hm0 =>
      split at h
      · exact Except.noConfusion h
      next rest hrest =>
        cases Except.ok.inj h
        by_cases hthr : req.min_score_threshold ≤ m0.score
        · rw [if_pos hthr] at hm
          rcases List.mem_cons.mp hm with rfl | hmm
          · exact ⟨hthr, d, hm0⟩
          · exact ih hrest hmm
        · rw [if_neg hthr] at hm
          exact ih hrest hm

theorem mem_sort_desc {m : EntityMapping} {l : List EntityMapping} :
    m ∈ sort_desc l ↔ m ∈ l := by
  induction l with
  | nil => simp [sort_desc]
  | cons h t ih => simp [sort_desc, mem_insert_desc, ih, List.mem_cons]

theorem mem_map_entity_to_docs {sim : List ℚ → List ℚ → ℚ} {e : CodeEntity}
    {docs : List DocEntity} {req : MapRequest} {out : List EntityMapping} {m : EntityMapping}
    (h : map_entity_to_docs sim e docs req = Except.ok out) (hm : m ∈ out) :
    ∃ c, candidate_mappings sim e req docs = Except.ok c ∧ m ∈ c := by
  simp only [map_entity_to_docs] at h
  split at h
  · exact Except.noConfusion h
  next cands hcands =>
    cases Except.ok.inj h
    exact ⟨cands, hcands, mem_sort_desc.mp (List.mem_of_mem_take hm)⟩

theorem mem_map_loop {sim : List ℚ → List ℚ → ℚ} {docs : List DocEntity}
    {req : MapRequest} {entities : List CodeEntity} {out : List EntityMapping}
    {m : EntityMapping}
    (h : map_loop sim docs req entities = Except.ok out) (hm : m ∈ out) :
    ∃ e out_e, map_entity_to_docs sim e docs req = Except.ok out_e ∧ m ∈ out_e := by
  induction entities generalizing out with
  | nil =>
    simp only [map_loop] at h
    cases Except.ok.inj h
    exact absurd hm (by simp)
  | cons e es ih =>
    simp only [map_loop] at h
    split at h
    · exact Except.noConfusion h
    next ms hms =>
      split at h
      · cases Except.ok.inj h
        exact ⟨e, _, hms, hm⟩
      · split at h
        · exact Except.noConfusion h
        next rest hrest =>
          cases Except.ok.inj h
          rcases List.mem_append.mp hm with hl | hr
          · exact ⟨e, _, hms, hl⟩
          · exact ih hrest hr

theorem mem_generate_mappings {md5b : String → List Nat} {sim : List ℚ → List ℚ → ℚ}
    {entities : List CodeEntity} {docs : List DocEntity} {req : MapRequest}
    {cache : EmbCache} {out : List EntityMapping} {m : EntityMapping}
    (h : generate_mappings md5b sim entities docs req cache = Except.ok out)
    (hm : m ∈ out) :
    ∃ e d, calculate_mapping_score sim e d req = Except.ok m
      ∧ req.min_score_threshold ≤ m.score := by
  simp only [generate_mappings] at h
  obtain ⟨e, out_e, he, hme⟩ := mem_map_loop h hm
  obtain ⟨c, hc, hmc⟩ := mem_map_entity_to_docs he hme
  obtain ⟨hthr, d, hd⟩ := mem_candidate_mappings hc hmc
  exact ⟨e, d, hd, hthr⟩

/-! ## Cauchy-Schwarz: the exact cosine of rational vectors lies in [-1, 1]

`cosine_similarity(a, b)` is `dot(a, b) / (‖a‖ ‖b‖)`.  The bound
`dot(a, b)² ≤ dot(a, a) · dot(b, b)` below is exactly the statement that
this quotient lies in [-1, 1] (squared), justifying the range assumed of
the abstract `sim` parameter. -/

def dot_prod (a b : List ℚ) : ℚ := (List.zipWith (fun x y => x * y) a b).sum

theorem dot_prod_self_nonneg (a : List ℚ) : 0 ≤ dot_prod a a := by
  induction a with
  | nil => simp [dot_prod]
  | cons x xs ih =>
    have e1 : dot_prod (x :: xs) (x :: xs) = x * x + dot_prod xs xs := rfl
    rw [e1]
    nlinarith [mul_self_nonneg x]

theorem dot_prod_sq_le (a b : List ℚ) :
    dot_prod a b ^ 2 ≤ dot_prod a a * dot_prod b b := by
  induction a generalizing b with
  | nil => simp [dot_prod]
  | cons x xs ih =>
    cases b with
    | nil =>
      have e1 : dot_prod (x :: xs) ([] : List ℚ) = 0 := rfl
      have e0 : dot_prod ([] : List ℚ) ([] : List ℚ) = 0 := rfl
      rw [e1, e0]
      norm_num
    | cons y ys =>
      have e1 : dot_prod (x :: xs) (y :: ys) = x * y + dot_prod xs ys := rfl
      have e2 : dot_prod (x :: xs) (x :: xs) = x * x + dot_prod xs xs := rfl
      have e3 : dot_prod (y :: ys) (y :: ys) = y * y + dot_prod ys ys := rfl
      rw [e1, e2, e3]
      have h1 := ih ys
      have hA := dot_prod_self_nonneg xs
      have hB := dot_prod_self_nonneg ys
      rcases eq_or_lt_of_le hB with hB0 | hBpos
      · have hD2 : dot_prod xs ys ^ 2 = 0 :=
          le_antisymm (by nlinarith) (sq_nonneg _)
        have hD : dot_prod xs ys = 0 := by
          exact pow_eq_zero_iff (two_ne_zero) |>.mp hD2
        rw [hD, ← hB0]
        nlinarith [mul_nonneg hA (sq_nonneg y), sq_nonneg (x * y)]
      · nlinarith [sq_nonneg (dot_prod ys ys * x - dot_prod xs ys * y),
          mul_nonneg (le_of_lt hBpos) (sub_nonneg.mpr h1),
          mul_nonneg (sq_nonneg y) (sub_nonneg.mpr h1)]

/-! ## Relation classification as an iff -/

theorem determine_relation_iff (q : ℚ) :
    (determine_relation q = "describes" ↔ q ≥ 0.8)
    ∧ (determine_relation q = "references" ↔ 0.5 ≤ q ∧ q < 0.8)
    ∧ (determine_relation q = "mentions" ↔ q < 0.5) := by
  unfold determine_relation
  by_cases h8 : q ≥ 0.8
  · rw [if_pos h8]
    refine ⟨iff_of_true rfl h8, ?_, ?_⟩
    · exact iff_of_false (by decide) (fun hc => absurd h8 (not_le.mpr hc.2))
    · exact iff_of_false (by decide)
        (fun hc => absurd h8 (not_le.mpr (lt_of_lt_of_le hc (by norm_num))))
  · by_cases h5 : q ≥ 0.5
    · rw [if_neg h8, if_pos h5]
      refine ⟨iff_of_false (by decide) h8, ?_, ?_⟩
      · exact iff_of_true rfl ⟨h5, lt_of_not_le h8⟩
      · exact iff_of_false (by decide) (fun hc => absurd h5 (not_le.mpr hc))
    · rw [if_neg h8, if_neg h5]
      refine ⟨iff_of_false (by decide) h8, ?_, ?_⟩
      · exact iff_of_false (by decide) (fun hc => h5 hc.1)
      · exact iff_of_true rfl (lt_of_not_le h5)

/-! ## C3: ranking is sorted, stable and capped -/

/-- C3: for every entity, the returned mapping list is sorted by score in
non-increasing order, the mappings of any fixed score form a prefix (a
`take`) of the threshold-filtered candidates in original doc order
(stable tie-break), and the list never exceeds
`max_mappings_per_entity`. -/
theorem c3_sorted_stable_capped (sim : List ℚ → List ℚ → ℚ) (entity : CodeEntity)
    (docs : List DocEntity) (request : MapRequest) (out : List EntityMapping)
    (h : map_entity_to_docs sim entity docs request = Except.ok out) :
    out.Pairwise score_ge
    ∧ (∃ cands, candidate_mappings sim entity request docs = Except.ok cands ∧
        ∀ s : ℚ, ∃ k, out.filter (fun m => decide (m.score = s)) =
          (cands.filter (fun m => decide (m.score = s))).take k)
    ∧ out.length ≤ request.max_mappings_per_entity := by
  simp only [map_entity_to_docs] at h
  split at h
  · exact Except.noConfusion h
  next cands hcands =>
    cases Except.ok.inj h
    refine ⟨?_, ⟨cands, hcands, ?_⟩, ?_⟩
    · exact List.Pairwise.sublist (List.take_sublist _ _) (sorted_sort_desc cands)
    · intro s
      obtain ⟨k, hk⟩ := filter_take_ex (fun m => decide (m.score = s)) (sort_desc cands)
        request.max_mappings_per_entity
      exact ⟨k, by rw [hk, filter_sort_desc]⟩
    · rw [List.length_take]
      exact min_le_left _ _

/-- C3 witness: the concrete run of `map_entity_to_docs` on the fixtures. -/
theorem c3_witness :
    ([mW].Pairwise score_ge)
    ∧ (∃ cands, candidate_mappings simW eW reqH [dW] = Except.ok cands ∧
        ∀ s : ℚ, ∃ k, [mW].filter (fun m => decide (m.score = s)) =
          (cands.filter (fun m => decide (m.score = s))).take k)
    ∧ [mW].length ≤ reqH.max_mappings_per_entity :=
  c3_sorted_stable_capped simW eW [dW] reqH [mW] (by with_unfolding_all rfl)

/-! ## C5: relation thresholds -/

/-- C5: in every mapping returned by `generate_mappings`, the relation is
"describes" iff the blended score is ≥ 0.8, "references" iff it lies in
[0.5, 0.8), and "mentions" otherwise (score < 0.5). -/
theorem c5_relation_thresholds (md5b : String → List Nat) (sim : List ℚ → List ℚ → ℚ)
    (entities : List CodeEntity) (docs : List DocEntity) (request : MapRequest)
    (cache : EmbCache) (out : List EntityMapping)
    (h : generate_mappings md5b sim entities docs request cache = Except.ok out)
    (m : EntityMapping) (hm : m ∈ out) :
    (m.relation = "describes" ↔ m.score ≥ 0.8)
    ∧ (m.relation = "references" ↔ 0.5 ≤ m.score ∧ m.score < 0.8)
    ∧ (m.relation = "mentions" ↔ m.score < 0.5) := by
  obtain ⟨e, d, hcalc, _⟩ := mem_generate_mappings h hm
  have hrel := (mapping_score_shape hcalc).1
  rw [hrel]
  exact determine_relation_iff m.score

/-- C5 witness. -/
theorem c5_witness :
    (mW.relation = "describes" ↔ mW.score ≥ 0.8)
    ∧ (mW.relation = "references" ↔ 0.5 ≤ mW.score ∧ mW.score < 0.8)
    ∧ (mW.relation = "mentions" ↔ mW.score < 0.5) :=
  c5_relation_thresholds md5W simW [eW] [dW] reqH [] [mW]
    (by with_unfolding_all rfl) mW (List.mem_singleton.mpr rfl)

/-! ## C6: score ranges and the minimum-score threshold -/

/-- C6: every mapping returned by `generate_mappings` has its blended,
heuristic and embedding scores in [0, 1], and its blended score reaches
the configured `min_score_threshold` (pairs below it are discarded).
`hsim` is the [-1, 1] range of the cosine, established for exact
arithmetic by `dot_prod_sq_le`. -/
theorem c6_score_bounds_threshold (md5b : String → List Nat) (sim : List ℚ → List ℚ → ℚ)
    (entities : List CodeEntity) (docs : List DocEntity) (request : MapRequest)
    (cache : EmbCache) (out : List EntityMapping)
    (hsim : ∀ a b : List ℚ, -1 ≤ sim a b ∧ sim a b ≤ 1)
    (h : generate_mappings md5b sim entities docs request cache = Except.ok out)
    (m : EntityMapping) (hm : m ∈ out) :
    (0 ≤ m.score ∧ m.score ≤ 1)
    ∧ (0 ≤ m.heuristics_score ∧ m.heuristics_score ≤ 1)
    ∧ (0 ≤ m.embedding_score ∧ m.embedding_score ≤ 1)
    ∧ request.min_score_threshold ≤ m.score := by
  obtain ⟨e, d, hcalc, hthr⟩ := mem_generate_mappings h hm
  have hh := mapping_heuristics_bounds hcalc
  have hsc := (mapping_score_shape hcalc).2.1
  have hemb := (mapping_score_shape hcalc).2.2.1
  have he : 0 ≤ m.embedding_score ∧ m.embedding_score ≤ 1 := by
    rw [hemb]
    exact embedding_score_bounds e d request hsim
  have hs : 0 ≤ m.score ∧ m.score ≤ 1 := by
    rw [hsc]
    exact combined_score_bounds request hh he
  exact ⟨hs, hh, he, hthr⟩

/-- C6 witness. -/
theorem c6_witness :
    ((0 ≤ mW.score ∧ mW.score ≤ 1)
    ∧ (0 ≤ mW.heuristics_score ∧ mW.heuristics_score ≤ 1)
    ∧ (0 ≤ mW.embedding_score ∧ mW.embedding_score ≤ 1)
    ∧ reqH.min_score_threshold ≤ mW.score) :=
  c6_score_bounds_threshold md5W simW [eW] [dW] reqH [] [mW]
    (fun a b => by norm_num [simW]) (by with_unfolding_all rfl)
    mW (List.mem_singleton.mpr rfl)

/-! ## C7: deterministic embeddings -/

theorem getD_default_or_mem {α : Type _} (l : List α) (n : Nat) (d : α) :
    l.getD n d = d ∨ l.getD n d ∈ l := by
  induction l generalizing n with
  | nil => exact Or.inl rfl
  | cons a t ih =>
    cases n with
    | zero => exact Or.inr (by rw [List.getD_cons_zero]; exact List.mem_cons_self a t)
    | succ n =>
      rw [List.getD_cons_succ]
      rcases ih n with h | h
      · exact Or.inl h
      · exact Or.inr (List.mem_cons_of_mem a h)

/-- C7: `generate_embedding` is deterministic per text within a run — a
second call for the same text returns the cached vector unchanged — and
the fallback (mock) embedding is a pure function of the digest of the
text's content: a fresh-cache call returns exactly
`generate_mock_embedding`, which has the fixed length 1536 and all
components in [-1, 1] (given that digest bytes are bytes). -/
theorem c7_embedding_deterministic (md5b : String → List Nat) (t : String)
    (cache : EmbCache) (hb : ∀ b ∈ md5b t, b ≤ 255) :
    (generate_embedding md5b ((generate_embedding md5b cache t).2) t).1
      = (generate_embedding md5b cache t).1
    ∧ (generate_embedding md5b [] t).1 = generate_mock_embedding md5b t
    ∧ (generate_mock_embedding md5b t).length = 1536
    ∧ ∀ x ∈ generate_mock_embedding md5b t, -1 ≤ x ∧ x ≤ 1 := by
  refine ⟨?_, ?_, ?_, ?_⟩
  · unfold generate_embedding
    cases hl : cache_lookup cache (get_cache_key md5b t) with
    | some v => simp [hl]
    | none => simp [hl, cache_lookup]
  · rfl
  · simp [generate_mock_embedding]
  · intro x hx
    simp only [generate_mock_embedding, List.mem_map] at hx
    obtain ⟨i, hi, rfl⟩ := hx
    have hbyte : (md5b t).getD (i % (md5b t).length) 0 ≤ 255 := by
      rcases getD_default_or_mem (md5b t) (i % (md5b t).length) 0 with hd | hmem
      · rw [hd]; norm_num
      · exact hb _ hmem
    have h255 : (((md5b t).getD (i % (md5b t).length) 0 : Nat) : ℚ) ≤ 255 := by
      exact_mod_cast hbyte
    have h0 : (0 : ℚ) ≤ (((md5b t).getD (i % (md5b t).length) 0 : Nat) : ℚ) :=
      Nat.cast_nonneg _
    constructor
    · have : (0 : ℚ) ≤ (((md5b t).getD (i % (md5b t).length) 0 : Nat) : ℚ) / 127.5 :=
        div_nonneg h0 (by norm_num)
      linarith
    · have : (((md5b t).getD (i % (md5b t).length) 0 : Nat) : ℚ) / 127.5 ≤ 2 := by
        rw [div_le_iff₀ (by norm_num : (0 : ℚ) < 127.5)]
        linarith
      linarith

/-- C7 witness at a concrete digest function, text and empty cache. -/
theorem c7_witness :
    (generate_embedding md5W ((generate_embedding md5W [] "x").2) "x").1
      = (generate_embedding md5W [] "x").1
    ∧ (generate_embedding md5W [] "x").1 = generate_mock_embedding md5W "x"
    ∧ (generate_mock_embedding md5W "x").length = 1536
    ∧ ∀ x ∈ generate_mock_embedding md5W "x", -1 ≤ x ∧ x ≤ 1 :=
  c7_embedding_deterministic md5W "x" [] (by decide)

/-! ## C8: confidence depends on the heuristic signals only -/

/-- The heuristic scorer never reads the embedding vectors. -/
theorem heuristics_ignore_embeddings (e : CodeEntity) (d : DocEntity)
    (ev dv : Option (List ℚ)) :
    calculate_heuristics_score { e with embedding := ev } { d with embedding := dv }
      = calculate_heuristics_score e d := by
  cases e
  cases d
  rfl

/-- C8: the confidence of a pair is `conf_tier` of its heuristic score
alone: two scorings that differ only in the similarity function and in
the embedding vectors of the entity and the doc yield the same
confidence. -/
theorem c8_confidence_heuristics_only (sim sim' : List ℚ → List ℚ → ℚ)
    (entity : CodeEntity) (doc : DocEntity) (request : MapRequest)
    (ev ev' dv dv' : Option (List ℚ)) (m m' : EntityMapping)
    (h : calculate_mapping_score sim { entity with embedding := ev }
          { doc with embedding := dv } request = Except.ok m)
    (h' : calculate_mapping_score sim' { entity with embedding := ev' }
          { doc with embedding := dv' } request = Except.ok m') :
    m.confidence = m'.confidence
    ∧ m.confidence = conf_tier m.heuristics_score := by
  have hc := mapping_confidence h
  have hp := (mapping_score_shape h).2.2.2
  have hp' := (mapping_score_shape h').2.2.2
  rw [heuristics_ignore_embeddings] at hp hp'
  refine ⟨?_, hc⟩
  by_cases hu : request.use_heuristics
  · rw [if_pos hu] at hp hp'
    have hpair := Except.ok.inj (hp.symm.trans hp')
    exact congrArg Prod.snd hpair
  · rw [if_neg hu] at hp hp'
    have h1 := congrArg Prod.snd (Except.ok.inj hp)
    have h2 := congrArg Prod.snd (Except.ok.inj hp')
    exact h1.symm.trans h2

/-- The two mappings of the C8 witness: heuristics-only embeddings off
versus a maximal cosine with vectors present; only the blended and
embedding scores move, the confidence does not. -/
def m8 : EntityMapping := { mW with score := 6/25 }

def m8' : EntityMapping :=
  { mW with
    score := 16/25
    relation := "references"
    embedding_score := 1 }

/-- C8 witness. -/
theorem c8_witness :
    m8.confidence = m8'.confidence ∧ m8.confidence = conf_tier m8.heuristics_score :=
  c8_confidence_heuristics_only simW sim1 eW dW reqB none (some [1]) none (some [1]) m8 m8'
    (by with_unfolding_all rfl) (by with_unfolding_all rfl)

/-! ## C9: with heuristics disabled every confidence is "low" -/

/-- C9: when `use_heuristics` is false the heuristic scorer is never
consulted and the default confidence "low" is kept on every returned
mapping, no matter how high the embedding or blended score gets. -/
theorem c9_no_heuristics_low_confidence (md5b : String → List Nat)
    (sim : List ℚ → List ℚ → ℚ) (entities : List CodeEntity) (docs : List DocEntity)
    (request : MapRequest) (cache : EmbCache) (out : List EntityMapping)
    (hreq : request.use_heuristics = false)
    (h : generate_mappings md5b sim entities docs request cache = Except.ok out)
    (m : EntityMapping) (hm : m ∈ out) : m.confidence = "low" := by
  obtain ⟨e, d, hcalc, _⟩ := mem_generate_mappings h hm
  have hp := (mapping_score_shape hcalc).2.2.2
  rw [hreq] at hp
  simp only [Bool.false_eq_true, if_false] at hp
  have := congrArg Prod.snd (Except.ok.inj hp)
  exact this.symm

/-- C9 witness: score 1 ("describes"-strength) yet confidence "low". -/
theorem c9_witness : m9.confidence = "low" :=
  c9_no_heuristics_low_confidence md5W sim1 [{ eW with embedding := some [1] }]
    [{ dW with embedding := some [1] }] req9 [] [m9] rfl
    (by with_unfolding_all rfl) m9 (List.mem_singleton.mpr rfl)

/-! ## C10 (amended): names with no surviving token score 0 everywhere -/

/-- C10 as amended: word extraction keeps only cleaned tokens longer than
two characters, so an entity name whose extraction succeeds with no
surviving token (e.g. "id", "go" — all word runs of length ≤ 2 and no
snake/kebab separator) has name similarity 0 against every title whose
own extraction succeeds — even the identical string — and heading
similarity 0 against every list of headings whose extractions succeed.
Names like "do_it" are excluded: their extraction raises. -/
theorem c10_short_tokens_zero (name title : String) (headings : List Heading)
    (hn : extract_words (to_lower_str name) = Except.ok [])
    (ht : ∃ tw, extract_words (to_lower_str title) = Except.ok tw)
    (hh : ∀ h ∈ headings, ∃ hw, extract_words (to_lower_str h.text) = Except.ok hw) :
    calculate_name_similarity name title = Except.ok 0
    ∧ calculate_heading_similarity name headings = Except.ok 0 := by
  constructor
  · unfold calculate_name_similarity
    split
    · rfl
    · rw [hn]
      obtain ⟨tw, htw⟩ := ht
      rw [htw]
      simp
  · unfold calculate_heading_similarity
    rw [hn]
    have main : ∀ hs : List Heading,
        (∀ h ∈ hs, ∃ hw, extract_words (to_lower_str h.text) = Except.ok hw) →
        heading_loop (([] : List String).toFinset) 0 hs = Except.ok 0 := by
      intro hs
      induction hs with
      | nil => intro _; rfl
      | cons hd tl ih =>
        intro hhs
        obtain ⟨hw, hhw⟩ := hhs hd (List.mem_cons_self hd tl)
        simp only [heading_loop, hhw]
        have hcond : ¬((([] : List String).toFinset ≠ ∅) ∧ hw.toFinset ≠ ∅) := by
          simp
        rw [if_neg hcond]
        exact ih (fun h hm => hhs h (List.mem_cons_of_mem hd hm))
    exact main headings hh

/-- C10 witness: entity name "id" against the identical title and heading. -/
theorem c10_witness :
    calculate_name_similarity "id" "id" = Except.ok 0
    ∧ calculate_heading_similarity "id" [{ text := "id", anchor := none }] = Except.ok 0 :=
  c10_short_tokens_zero "id" "id" [{ text := "id", anchor := none }]
    (by with_unfolding_all rfl)
    ⟨[], by with_unfolding_all rfl⟩
    (fun h hm => ⟨[], by rw [List.mem_singleton.mp hm]; with_unfolding_all rfl⟩)
